import Mathlib

/-! Capa de interconexión de seguridad: shallow embedding of `src/poc/main.go`.

The Go program polls an IMAP mailbox, looks at the last five messages, and for
every message whose subject matches a trigger word appends an annotated copy
to the mailbox, recording the UID of the original in a ledger (an in-memory
`map[string]bool` mirrored by an append-only text file).

Modelling conventions.

* Go strings are modelled by `String` (valid Unicode text).  For valid UTF-8 a
  byte-wise substring test and a character-wise one agree.
* `uint32` values are natural numbers; the only arithmetic on them
  (`mbox.Messages - 4`) is written with an explicit reduction modulo `2 ^ 32`.
* The `map[string]bool` only ever stores `true`, so it is the finite set of its
  keys, kept as a duplicate-free list; `m[k]` is membership.
* Everything the program obtains from outside (the IMAP server, the file
  system, the Unicode case table, the account name read from the environment)
  is a parameter: `Entorno` for the process environment, `Buzon` for what the
  server answers during one polling cycle.
* A Go run-time panic is the error side of `Except Panico _`.
-/

namespace Poc

/-! ## Constants -/

/-- The constant `ArchivoRegistro`. -/
def ArchivoRegistro : String := "historial_procesados.txt"

/-- The constant `CabeceraAlerta` (a raw string literal, lines 23-32). -/
def CabeceraAlerta : String :=
  "\n" ++
  "<div style=\"background-color: #ffe6e6; border: 3px solid #ff0000; padding: 15px; margin-bottom: 20px; font-family: sans-serif;\">\n" ++
  "    <h2 style=\"color: #cc0000; margin-top: 0;\">ANÁLISIS DE SEGURIDAD: CAPA DE INTERCONEXIÓN</h2>\n" ++
  "    <p style=\"font-size: 16px; color: #333;\">\n" ++
  "        El sistema ha detectado patrones sospechosos de <strong>PHISHING</strong> en este mensaje.\n" ++
  "    </p>\n" ++
  "    <p><strong>RECOMENDACIÓN:</strong> No interactúe con enlaces ni proporcione credenciales.</p>\n" ++
  "</div>\n" ++
  "<hr>\n"

/-- The tag literal tested at line 104 and written into the subject at line 144. -/
def Etiqueta : String := "[ANALIZADO]"

/-- The trigger keyword tested at line 108. -/
def PalabraClave : String := "prueba"

/-- The fallback text assigned at line 134. -/
def TextoPorDefecto : String := "(Contenido analizado por Capa de Interconexión)"

/-! ## Library functions used by the program -/

/-- Substring test on character lists: is `sub` a contiguous block of the list? -/
def contieneLista (sub : List Char) : List Char → Bool
  | [] => sub.isEmpty
  | c :: t => sub.isPrefixOf (c :: t) || contieneLista sub t

/-- Go `strings.Contains(s, substr)`. -/
def stringsContains (s substr : String) : Bool :=
  contieneLista substr.data s.data

/-- Lower-casing of one ASCII code point: `A`-`Z` go to `a`-`z`, the rest stay. -/
def minusculaAscii (c : Char) : Char :=
  if 65 ≤ c.toNat ∧ c.toNat ≤ 90 then Char.ofNat (c.toNat + 32) else c

/-- Go `unicode.ToLower` on one code point.  On ASCII it is the ASCII mapping;
above ASCII it is the Unicode case table, which is passed in as `tabla`. -/
def unicodeToLower (tabla : Char → Char) (c : Char) : Char :=
  if c.toNat < 128 then minusculaAscii c else tabla c

/-- Go `strings.ToLower(s)`. -/
def stringsToLower (tabla : Char → Char) (s : String) : String :=
  ⟨s.data.map (unicodeToLower tabla)⟩

/-- Go `fmt.Sprintf("%d", uid)` for an unsigned integer: its decimal digits. -/
def sprintfD (uid : Nat) : String := Nat.repr uid

/-- Subtraction of `uint32` values, wrapping modulo `2 ^ 32`. -/
def restaU32 (a b : Nat) : Nat := (a + 2 ^ 32 - b % 2 ^ 32) % 2 ^ 32

/-- Go `bufio.MaxScanTokenSize`: the largest buffer a `bufio.Scanner` allocates. -/
def MaxScanTokenSize : Nat := 64 * 1024

/-- Number of bytes of the UTF-8 encoding of a character list. -/
def bytesUtf8 (cs : List Char) : Nat := (cs.map Char.utf8Size).sum

/-- The `dropCR` step of `bufio.ScanLines`: a single trailing carriage return is
removed from a line. -/
def dropCR (linea : List Char) : List Char :=
  if linea.getLast? = some '\r' then linea.dropLast else linea

/-- The tokens a `bufio.Scanner` with the default split function (`ScanLines`)
returns for the given remaining input; `acc` holds the characters of the
current line read so far, in reverse.  A line ends at a newline or at the end
of input (an empty last line is not returned).  Scanning stops for good as soon
as the pending line fills the whole buffer without a newline. -/
def scanLineasAux : List Char → List Char → List String
  | [], acc => if acc.isEmpty then [] else [⟨dropCR acc.reverse⟩]
  | c :: resto, acc =>
    if c = '\n' then
      ⟨dropCR acc.reverse⟩ :: scanLineasAux resto []
    else if MaxScanTokenSize ≤ bytesUtf8 (c :: acc) then []
    else scanLineasAux resto (c :: acc)

/-- All the values `scanner.Text()` takes in a `for scanner.Scan()` loop over a
file with the given contents. -/
def scanLineas (contenido : String) : List String :=
  scanLineasAux contenido.data []

/-! ## The ledger -/

/-- The in-memory ledger `map[string]bool`: the list of its keys. -/
abbrev Historial := List String

/-- The lookup `m[k]` (a missing key reads as `false`). -/
def Historial.contiene (h : Historial) (k : String) : Bool := decide (k ∈ h)

/-- The assignment `m[k] = true`. -/
def Historial.marcar (h : Historial) (k : String) : Historial :=
  if k ∈ h then h else h ++ [k]

/-- The function `cargarRegistros` (lines 36-48).  The argument is the ledger file as
`os.Open` finds it: `none` when it cannot be opened (for instance because it
does not exist), otherwise its contents. -/
def cargarRegistros (archivo : Option String) : Historial :=
  match archivo with
  | none => []
  | some contenido => (scanLineas contenido).foldl Historial.marcar []

/-- The function `registrarUid` (lines 51-58).  `abre` tells whether `os.OpenFile` succeeds;
with `O_CREATE|O_APPEND` a missing file is created and the line is added at the
end.  The result is the file afterwards.  (The result of `Fprintf` is not
looked at by the program; the write is taken to be complete.) -/
def registrarUid (abre : Bool) (archivo : Option String) (uid : Nat) : Option String :=
  if abre then some (archivo.getD "" ++ sprintfD uid ++ "\n") else archivo

/-! ## Messages -/

/-- An `imap.Address`, as far as its method `Address()` reads it. -/
structure ImapAddress where
  MailboxName : String
  HostName : String
  deriving DecidableEq, Repr

/-- The method `(*imap.Address).Address`. -/
def ImapAddress.Address (a : ImapAddress) : String := a.MailboxName ++ "@" ++ a.HostName

/-- The fields of `imap.Envelope` the program reads. -/
structure Envelope where
  Subject : String
  MessageId : String
  From : List ImapAddress
  deriving DecidableEq, Repr

/-- The header of one MIME part as `mail.Reader.NextPart` returns it: either a
`*mail.InlineHeader` with the media type `h.ContentType()` reports, or another
kind of header (an attachment). -/
inductive PartHeader where
  | inline (tipo : String)
  | attachment
  deriving DecidableEq, Repr

/-- One part returned by `NextPart`: its header and what `io.ReadAll(p.Body)`
yields (the error of `ReadAll` is discarded by the program). -/
structure Part where
  Header : PartHeader
  Body : String
  deriving DecidableEq, Repr

/-- A fetched `imap.Message`.  The fetch asks for the envelope, the UID and the body
section, and the message is taken to carry all three.  `Cuerpo` is what
`mail.CreateReader(msg.GetBody(..))` gives: `none` when it returns an error,
otherwise the parts `NextPart` returns before it reports `io.EOF` or another
error (both end the loop of line 119). -/
structure Message where
  Uid : Nat
  Envelope : Envelope
  Cuerpo : Option (List Part)
  deriving DecidableEq, Repr

/-! ## Window of messages to scan (lines 80-87) -/

/-- The sequence range handed to `c.Fetch`, or `none` when `mbox.Messages` is zero
and no fetch is made. -/
def calcularRango (mensajes : Nat) : Option (Nat × Nat) :=
  if mensajes > 0 then
    let inicio := if mensajes > 5 then restaU32 mensajes 4 else 1
    some (inicio, mensajes)
  else none

/-! ## Environment and state -/

/-- What the process finds around it and cannot compute: the account name read
from `EMAIL_USER`, the Unicode lower-case table, the outcome of every call of
`c.Append` and of every `os.OpenFile` inside `registrarUid`.  Calls are numbered
from zero in the order the process makes them, so every behaviour of the server
and of the file system is some `Entorno`. -/
structure Entorno where
  UsuarioEmail : String
  tablaMinusculas : Char → Char
  appendOk : Nat → Bool
  abreArchivo : Nat → Bool

/-- The state the scan loop works on: the in-memory ledger `*historial`, the ledger
file, and a trace of the calls made so far: every `c.Append` with the literal
sent and whether it succeeded, and the number of `registrarUid` calls. -/
structure Estado where
  historial : Historial
  archivo : Option String
  llamadasAppend : List (String × Bool)
  llamadasRegistro : Nat
  deriving DecidableEq, Repr

/-- A Go run-time panic. -/
inductive Panico where
  | indexOutOfRange
  deriving DecidableEq, Repr

/-! ## Extraction and annotation -/

/-- The loop of lines 118-131: `htmlOriginal` starts empty and is assigned the body of
every inline part whose media type is `text/html`. -/
def recorrerPartes (partes : List Part) : String :=
  partes.foldl
    (fun htmlOriginal p =>
      match p.Header with
      | .inline tipo => if tipo = "text/html" then p.Body else htmlOriginal
      | .attachment => htmlOriginal)
    ""

/-- Lines 118-135: the extracted HTML, with the fallback of lines 133-135. -/
def extraerHtml (partes : List Part) : String :=
  let htmlOriginal := recorrerPartes partes
  if htmlOriginal = "" then TextoPorDefecto else htmlOriginal

/-- The `fmt.Sprintf` of lines 141-152: every `%s` is replaced by its argument as it
is; the last argument is `CabeceraAlerta+htmlOriginal`. -/
def mensajeFinal (remitente usuario asunto msgId cuerpo : String) : String :=
  "From: " ++ remitente ++ "\r\n" ++
  "To: " ++ usuario ++ "\r\n" ++
  "Subject: [ANALIZADO] " ++ asunto ++ "\r\n" ++
  "In-Reply-To: " ++ msgId ++ "\r\n" ++
  "References: " ++ msgId ++ "\r\n" ++
  "MIME-Version: 1.0\r\n" ++
  "Content-Type: text/html; charset=UTF-8\r\n" ++
  "\r\n" ++
  cuerpo

/-! ## The scan loop -/

/-- The body of `for msg := range canalMensajes` (lines 100-164) for one message. -/
def procesarMensaje (env : Entorno) (st : Estado) (msg : Message) : Except Panico Estado :=
  let id := sprintfD msg.Uid
  let asunto := msg.Envelope.Subject
  let msgId := msg.Envelope.MessageId
  if stringsContains asunto Etiqueta || st.historial.contiene id then
    .ok st
  else if stringsContains (stringsToLower env.tablaMinusculas asunto) PalabraClave then
    match msg.Cuerpo with
    | none => .ok st
    | some partes =>
      let htmlOriginal := extraerHtml partes
      match msg.Envelope.From with
      | [] => .error .indexOutOfRange
      | primero :: _ =>
        let remitente := primero.Address
        let texto := mensajeFinal remitente env.UsuarioEmail asunto msgId
          (CabeceraAlerta ++ htmlOriginal)
        let exito := env.appendOk st.llamadasAppend.length
        if exito then
          .ok { historial := st.historial.marcar id
                archivo := registrarUid (env.abreArchivo st.llamadasRegistro) st.archivo msg.Uid
                llamadasAppend := st.llamadasAppend ++ [(texto, true)]
                llamadasRegistro := st.llamadasRegistro + 1 }
        else
          .ok { st with llamadasAppend := st.llamadasAppend ++ [(texto, false)] }
  else
    .ok st

/-- The loop `for msg := range canalMensajes` over the messages the fetch delivers,
in order.  A panic ends it. -/
def procesarLote (env : Entorno) (st : Estado) : List Message → Except Panico Estado
  | [] => .ok st
  | msg :: resto =>
    match procesarMensaje env st msg with
    | .ok st1 => procesarLote env st1 resto
    | .error p => .error p

/-- What the server answers during one polling cycle: `c.Select` gives an error or the
message count `mbox.Messages`; `c.Fetch` on a range sends messages on the
channel and then its result (`none` for `nil`) on `done`. -/
structure Buzon where
  seleccion : Except String Nat
  fetch : Nat → Nat → List Message × Option String

/-- One iteration of the outer `for` (lines 73-170), up to the sleep.  The second component
of the result is the error `iniciarServicioSeguridad` returns with, if any. -/
def cicloEscaneo (env : Entorno) (st : Estado) (bz : Buzon) :
    Except Panico (Estado × Option String) :=
  match bz.seleccion with
  | .error e => .ok (st, some e)
  | .ok mensajes =>
    match calcularRango mensajes with
    | none => .ok (st, none)
    | some (inicio, fin) =>
      match procesarLote env st (bz.fetch inicio fin).1 with
      | .error p => .error p
      | .ok st1 => .ok (st1, (bz.fetch inicio fin).2)

/-- The outer `for` of `iniciarServicioSeguridad`, run against the given sequence of
server behaviours, one per cycle.  It stops at the first cycle that returns an
error; `none` means the loop is still running when the sequence ends. -/
def bucle (env : Entorno) (st : Estado) : List Buzon → Except Panico (Estado × Option String)
  | [] => .ok (st, none)
  | bz :: resto =>
    match cicloEscaneo env st bz with
    | .error p => .error p
    | .ok (st1, some e) => .ok (st1, some e)
    | .ok (st1, none) => bucle env st1 resto

/-- The function `iniciarServicioSeguridad` (lines 60-171).  `dial` and `login` are the errors of
`client.DialTLS` and `c.Login` (`none` for `nil`). -/
def iniciarServicioSeguridad (env : Entorno) (dial login : Option String) (st : Estado)
    (ciclos : List Buzon) : Except Panico (Estado × Option String) :=
  match dial with
  | some e => .ok (st, some e)
  | none =>
    match login with
    | some e => .ok (st, some e)
    | none => bucle env st ciclos

/-! ## Definitions used to state the properties -/

/-- Letter `c` is the lower-case letter `k` or its upper-case form. -/
def mismaLetra (k c : Char) : Bool :=
  c == k || c == Char.ofNat (k.toNat - 32)

/-- The word `w` spells `clave` letter by letter, every letter in either case. -/
def esVariante : List Char → List Char → Bool
  | [], [] => true
  | k :: ks, c :: cs => mismaLetra k c && esVariante ks cs
  | _, _ => false

/-- Part `p` is an inline part whose media type is `text/html`. -/
def esHtml (p : Part) : Bool :=
  match p.Header with
  | .inline tipo => decide (tipo = "text/html")
  | .attachment => false

/-- The body of the first inline `text/html` part, if there is one. -/
def primerHtml (partes : List Part) : Option String :=
  (partes.find? esHtml).map (·.Body)

/-- The body of the last inline `text/html` part, if there is one. -/
def ultimoHtml (partes : List Part) : Option String :=
  (partes.filter esHtml).getLast?.map (·.Body)

/-- The extractor as the specification words it: the result is the text of the first
inline `text/html` part, and it is the fallback text exactly when there is no
such part. -/
def ExtractorSegunSpec (partes : List Part) : Prop :=
  (∀ t, primerHtml partes = some t → extraerHtml partes = t) ∧
  (extraerHtml partes = TextoPorDefecto ↔ primerHtml partes = none)

/-- The three filters of lines 104 and 108 let the message through: no tag in the
subject, UID not in the ledger, keyword in the lower-cased subject. -/
def pasaFiltros (env : Entorno) (st : Estado) (msg : Message) : Bool :=
  !stringsContains msg.Envelope.Subject Etiqueta &&
  !st.historial.contiene (sprintfD msg.Uid) &&
  stringsContains (stringsToLower env.tablaMinusculas msg.Envelope.Subject) PalabraClave

/-- The literal built for a message whose first sender is `primero`, around the given
HTML. -/
def textoAnotado (env : Entorno) (msg : Message) (primero : ImapAddress) (html : String) :
    String :=
  mensajeFinal primero.Address env.UsuarioEmail msg.Envelope.Subject msg.Envelope.MessageId
    (CabeceraAlerta ++ html)

/-- The messages the fetch delivers during the cycle (none when the select fails or the
mailbox is empty). -/
def loteDe (bz : Buzon) : List Message :=
  match bz.seleccion with
  | .error _ => []
  | .ok mensajes =>
    match calcularRango mensajes with
    | none => []
    | some (inicio, fin) => (bz.fetch inicio fin).1

/-- The `c.Append` calls made on the way from state `st` to the later state `st1`. -/
def llamadasNuevas (st st1 : Estado) : List (String × Bool) :=
  st1.llamadasAppend.drop st.llamadasAppend.length

/-- The error the cycle hands to `iniciarServicioSeguridad`: the select error, or else
the value the fetch sends on `done`. -/
def errorDeSesion (bz : Buzon) : Option String :=
  match bz.seleccion with
  | .error e => some e
  | .ok mensajes =>
    match calcularRango mensajes with
    | none => none
    | some (inicio, fin) => (bz.fetch inicio fin).2

/-- The degradation as the specification words it: the message is appended, and the
literal sent carries the fallback text after the banner. -/
def DegradaATextoPorDefecto (env : Entorno) (st : Estado) (msg : Message) : Prop :=
  ∃ primero otros st1, msg.Envelope.From = primero :: otros ∧
    procesarMensaje env st msg = .ok st1 ∧
    st1.llamadasAppend = st.llamadasAppend ++
      [(textoAnotado env msg primero TextoPorDefecto, env.appendOk st.llamadasAppend.length)]

/-- The message is left alone in state `st`: a filter rejects it or its body cannot be
read. -/
def enReposo (env : Entorno) (st : Estado) (msg : Message) : Prop :=
  pasaFiltros env st msg = false ∨ msg.Cuerpo = none

/-- The ten decimal digit characters. -/
def digitos : List Char := ['0', '1', '2', '3', '4', '5', '6', '7', '8', '9']

/-- The number a list of decimal digits denotes. -/
def valorDecimal (cs : List Char) : Nat :=
  cs.foldl (fun a c => 10 * a + (c.toNat - 48)) 0

/-- The characters `registrarUid` writes for the given UIDs, one line each. -/
def lineasDe (uids : List Nat) : List Char :=
  (uids.map (fun u => (sprintfD u).data ++ ['\n'])).flatten

/-- The lines of a text whose lines end in CR LF; `acc` holds the current line read so
far, in reverse. -/
def lineasCRLFAux : List Char → List Char → List String
  | [], acc => [⟨acc.reverse⟩]
  | [c], acc => [⟨(c :: acc).reverse⟩]
  | c :: d :: resto, acc =>
    if c = '\r' ∧ d = '\n' then ⟨acc.reverse⟩ :: lineasCRLFAux resto []
    else lineasCRLFAux (d :: resto) (c :: acc)

/-- The header block of an RFC 822 message: its lines up to the first empty line, which
is where the body starts. -/
def bloqueCabeceras (mensaje : String) : List String :=
  (lineasCRLFAux mensaje.data []).takeWhile (fun l => l ≠ "")

/-- The value of the first field called `nombre` in the header block of the message,
read from a line of the form `nombre: value`. -/
def valorCabecera (nombre mensaje : String) : Option String :=
  ((bloqueCabeceras mensaje).find? (fun l => (nombre ++ ": ").data.isPrefixOf l.data)).map
    (fun l => ⟨l.data.drop (nombre ++ ": ").data.length⟩)

/-- An environment in which every append and every file open succeeds. -/
def entornoEjemplo : Entorno :=
  { UsuarioEmail := "yo@gmail.com"
    tablaMinusculas := fun c => c
    appendOk := fun _ => true
    abreArchivo := fun _ => true }

/-- Empty ledger, no ledger file, nothing sent yet. -/
def estadoInicial : Estado :=
  { historial := [], archivo := none, llamadasAppend := [], llamadasRegistro := 0 }

def remitenteEjemplo : ImapAddress := { MailboxName := "ana", HostName := "banco.example" }

def mensaje8 : Message :=
  { Uid := 8
    Envelope := { Subject := "Factura de marzo", MessageId := "<m8@banco.example>",
                  From := [remitenteEjemplo] }
    Cuerpo := some [{ Header := .inline "text/plain", Body := "adjunto" }] }

def mensaje9 : Message :=
  { Uid := 9
    Envelope := { Subject := "Hola", MessageId := "<m9@banco.example>",
                  From := [remitenteEjemplo] }
    Cuerpo := some [{ Header := .inline "text/html", Body := "<p>hola</p>" }] }

def mensaje10 : Message :=
  { Uid := 10
    Envelope := { Subject := "Prueba de phishing", MessageId := "<m10@banco.example>",
                  From := [remitenteEjemplo] }
    Cuerpo := some [{ Header := .inline "text/html", Body := "<p>pulse aqui</p>" }] }

/-- A mailbox with three messages and a fetch that succeeds. -/
def buzonEjemplo : Buzon :=
  { seleccion := .ok 3
    fetch := fun inicio fin =>
      (if inicio = 1 ∧ fin = 3 then [mensaje8, mensaje9, mensaje10] else [], none) }

/-- The state after the first cycle over `buzonEjemplo` from `estadoInicial`. -/
def estadoTrasCiclo : Estado :=
  { historial := ["10"]
    archivo := some "10\n"
    llamadasAppend :=
      [("From: ana@banco.example\r\n" ++
        "To: yo@gmail.com\r\n" ++
        "Subject: [ANALIZADO] Prueba de phishing\r\n" ++
        "In-Reply-To: <m10@banco.example>\r\n" ++
        "References: <m10@banco.example>\r\n" ++
        "MIME-Version: 1.0\r\n" ++
        "Content-Type: text/html; charset=UTF-8\r\n" ++
        "\r\n" ++
        CabeceraAlerta ++ "<p>pulse aqui</p>", true)]
    llamadasRegistro := 1 }

/-- Message 10 with a body for which `mail.CreateReader` returns an error. -/
def mensajeIlegible : Message := { mensaje10 with Cuerpo := none }

/-- Message 10 with an envelope that has no sender. -/
def mensajeSinRemitente : Message :=
  { mensaje10 with Envelope := { mensaje10.Envelope with From := [] } }

/-- A mailbox whose window holds `mensajeSinRemitente`. -/
def buzonSinRemitente : Buzon :=
  { seleccion := .ok 1
    fetch := fun _ _ => ([mensajeSinRemitente], none) }

/-- Message 10 with a subject that holds an empty line (CR LF CR LF), as a decoded
encoded-word can. -/
def mensajeInyeccion : Message :=
  { mensaje10 with
    Envelope := { mensaje10.Envelope with Subject := "Prueba\r\n\r\n<b>texto</b>" } }

/-- The annotated copy of message 10 as the mailbox holds it after the append. -/
def mensajeAnotado : Message :=
  { Uid := 11
    Envelope := { Subject := "[ANALIZADO] Prueba de phishing", MessageId := "",
                  From := [remitenteEjemplo] }
    Cuerpo := some [{ Header := .inline "text/html", Body := "<p>pulse aqui</p>" }] }

/-- A message whose subject spells the keyword in mixed case. -/
def mensajeMayusculas : Message :=
  { mensaje10 with
    Envelope := { mensaje10.Envelope with Subject := "Aviso: PrUEbA de seguridad" } }

def parteHtml (texto : String) : Part := { Header := .inline "text/html", Body := texto }

/-! ## Basic facts about the library functions -/

theorem contieneLista_iff (sub s : List Char) : contieneLista sub s = true ↔ sub <:+: s := by
  induction s with
  | nil => simp [contieneLista, List.isEmpty_iff]
  | cons c t ih =>
    simp only [contieneLista, Bool.or_eq_true, ih, List.isPrefixOf_iff_prefix]
    exact List.infix_cons_iff.symm

theorem stringsContains_iff (s sub : String) :
    stringsContains s sub = true ↔ sub.data <:+: s.data :=
  contieneLista_iff _ _

theorem unicodeToLower_variante (tabla : Char → Char) (k c : Char)
    (hk : 97 ≤ k.toNat ∧ k.toNat ≤ 122) (h : mismaLetra k c = true) :
    unicodeToLower tabla c = k := by
  simp only [mismaLetra, Bool.or_eq_true, beq_iff_eq] at h
  have hval : ∀ n : Nat, n < 128 → (Char.ofNat n).toNat = n := by
    intro n hn
    have hv : n.isValidChar := Or.inl (by omega)
    simp [Char.ofNat, hv, Char.toNat, Char.ofNatAux, UInt32.toNat]
  rcases h with h | h
  · subst h
    have h1 : c.toNat < 128 := by omega
    have h2 : ¬ (65 ≤ c.toNat ∧ c.toNat ≤ 90) := by omega
    simp [unicodeToLower, minusculaAscii, h1, h2]
  · have h0 : c.toNat = k.toNat - 32 := by rw [h]; exact hval _ (by omega)
    have h1 : c.toNat < 128 := by omega
    have h2 : 65 ≤ c.toNat ∧ c.toNat ≤ 90 := by omega
    have h3 : c.toNat + 32 = k.toNat := by omega
    simp only [unicodeToLower, minusculaAscii, h1, h2, if_true, and_self, h3]
    exact Char.ofNat_toNat k

theorem map_unicodeToLower_variante (tabla : Char → Char) :
    ∀ (ks w : List Char), (∀ k ∈ ks, 97 ≤ k.toNat ∧ k.toNat ≤ 122) →
      esVariante ks w = true → w.map (unicodeToLower tabla) = ks
  | [], [], _, _ => rfl
  | [], _ :: _, _, h => by simp [esVariante] at h
  | _ :: _, [], _, h => by simp [esVariante] at h
  | k :: ks, c :: cs, hk, h => by
    simp only [esVariante, Bool.and_eq_true] at h
    simp only [List.map_cons]
    rw [unicodeToLower_variante tabla k c (hk k (List.mem_cons_self _ _)) h.1,
      map_unicodeToLower_variante tabla ks cs
        (fun x hx => hk x (List.mem_cons_of_mem _ hx)) h.2]

theorem palabraClave_minusculas : ∀ k ∈ PalabraClave.data, 97 ≤ k.toNat ∧ k.toNat ≤ 122 := by
  decide

/-! ## Skip guards -/

theorem procesarMensaje_guardas (env : Entorno) (st : Estado) (msg : Message)
    (h : st.historial.contiene (sprintfD msg.Uid) = true ∨
      stringsContains msg.Envelope.Subject Etiqueta = true) :
    procesarMensaje env st msg = .ok st := by
  unfold procesarMensaje
  rcases h with h | h <;> simp [h]

/-- C1. A message whose UID (in decimal) is already a key of the ledger, or whose
subject contains the tag "[ANALIZADO]", is passed over: the state after it is
the state before it, so no `c.Append` call is made and neither the in-memory
ledger nor the ledger file changes. -/
theorem omite_registrado_o_etiquetado (env : Entorno) (st : Estado) (msg : Message)
    (h : st.historial.contiene (sprintfD msg.Uid) = true ∨
      stringsContains msg.Envelope.Subject Etiqueta = true) :
    procesarMensaje env st msg = .ok st ∧
    (∀ st1, procesarMensaje env st msg = .ok st1 →
      st1.llamadasAppend = st.llamadasAppend ∧ st1.historial = st.historial ∧
      st1.archivo = st.archivo) := by
  have hp := procesarMensaje_guardas env st msg h
  refine ⟨hp, ?_⟩
  intro st1 h1
  rw [hp] at h1
  injection h1 with h1
  subst h1
  exact ⟨rfl, rfl, rfl⟩

theorem omite_registrado_o_etiquetado_witness :
    procesarMensaje entornoEjemplo estadoTrasCiclo mensaje10 = .ok estadoTrasCiclo ∧
    procesarMensaje entornoEjemplo estadoInicial mensajeAnotado = .ok estadoInicial :=
  ⟨(omite_registrado_o_etiquetado entornoEjemplo estadoTrasCiclo mensaje10
      (Or.inl (by decide))).1,
   (omite_registrado_o_etiquetado entornoEjemplo estadoInicial mensajeAnotado
      (Or.inr (by decide))).1⟩

/-! ## Window -/

/-- C3. For a 32-bit message count `n`: with `n = 0` no range is computed and the
cycle returns without asking the server for messages; with `n ≥ 1` the range is
`[max 1 (n - 4), n]` (truncated subtraction), it holds `min n 5` sequence
numbers, and it is the range the cycle fetches and processes. -/
theorem calcularRango_ventana (n : Nat) (hn : n < 2 ^ 32) :
    (n = 0 → calcularRango n = none ∧
      ∀ env st f, cicloEscaneo env st ⟨.ok n, f⟩ = .ok (st, none)) ∧
    (1 ≤ n → calcularRango n = some (max 1 (n - 4), n) ∧
      n - max 1 (n - 4) + 1 = min n 5 ∧
      ∀ env st f, cicloEscaneo env st ⟨.ok n, f⟩ =
        (procesarLote env st (f (max 1 (n - 4)) n).1).map
          (fun st1 => (st1, (f (max 1 (n - 4)) n).2))) := by
  refine ⟨?_, ?_⟩
  · rintro rfl
    exact ⟨rfl, fun _ _ _ => rfl⟩
  · intro h1
    have hr : calcularRango n = some (max 1 (n - 4), n) := by
      unfold calcularRango restaU32
      have : n > 0 := h1
      simp only [this, if_true]
      by_cases h5 : n > 5
      · simp only [h5, if_true]
        have e : (n + 2 ^ 32 - 4 % 2 ^ 32) % 2 ^ 32 = n - 4 := by
          norm_num at hn ⊢
          omega
        have m : max 1 (n - 4) = n - 4 := by omega
        rw [e, m]
      · simp only [h5, if_false]
        have m : max 1 (n - 4) = 1 := by omega
        rw [m]
    refine ⟨hr, by omega, ?_⟩
    intro env st f
    simp only [cicloEscaneo, hr]
    cases procesarLote env st (f (max 1 (n - 4)) n).1 <;> rfl

theorem calcularRango_ventana_witness :
    (3 = 0 → calcularRango 3 = none ∧
      ∀ env st f, cicloEscaneo env st ⟨.ok 3, f⟩ = .ok (st, none)) ∧
    (1 ≤ 3 → calcularRango 3 = some (max 1 (3 - 4), 3) ∧
      3 - max 1 (3 - 4) + 1 = min 3 5 ∧
      ∀ env st f, cicloEscaneo env st ⟨.ok 3, f⟩ =
        (procesarLote env st (f (max 1 (3 - 4)) 3).1).map
          (fun st1 => (st1, (f (max 1 (3 - 4)) 3).2))) :=
  calcularRango_ventana 3 (by norm_num)

/-! ## Extraction -/

theorem recorrerPartes_foldl (partes : List Part) (acc : String) :
    partes.foldl
      (fun htmlOriginal p =>
        match p.Header with
        | .inline tipo => if tipo = "text/html" then p.Body else htmlOriginal
        | .attachment => htmlOriginal)
      acc = (ultimoHtml partes).getD acc := by
  induction partes generalizing acc with
  | nil => rfl
  | cons p ps ih =>
    rw [List.foldl_cons, ih]
    unfold ultimoHtml
    rcases p with ⟨hd, body⟩
    cases hd with
    | attachment => simp [List.filter, esHtml]
    | inline tipo =>
      by_cases ht : tipo = "text/html"
      · simp only [ht, if_true, List.filter, esHtml, decide_True, List.getLast?_cons]
        cases (List.filter esHtml ps).getLast? <;> rfl
      · simp [List.filter, esHtml, ht]

/-- C5 (counterexample). With two `text/html` parts the extractor does not return the
first one, and with a single empty `text/html` part it returns the fallback
text although the body has a `text/html` part. -/
theorem extractor_no_primero :
    ¬ ExtractorSegunSpec [parteHtml "<p>uno</p>", parteHtml "<p>dos</p>"] ∧
    ¬ ExtractorSegunSpec [parteHtml ""] := by
  constructor
  · intro h
    exact absurd (h.1 "<p>uno</p>" (by decide)) (by decide)
  · intro h
    exact absurd (h.2.mp (by decide)) (by decide)

theorem extraerHtml_eq_ultimo (partes : List Part) :
    extraerHtml partes =
      match ultimoHtml partes with
      | none => TextoPorDefecto
      | some t => if t = "" then TextoPorDefecto else t := by
  unfold extraerHtml recorrerPartes
  rw [recorrerPartes_foldl]
  cases ultimoHtml partes <;> simp

/-- C5 (amended). The extracted HTML is the text of the last inline `text/html` part,
exactly as that part holds it, unless that text is empty; it is the fallback
text when there is no inline `text/html` part or the last one is empty. -/
theorem extractor_ultimo_html (partes : List Part) :
    extraerHtml partes =
      match ultimoHtml partes with
      | none => TextoPorDefecto
      | some t => if t = "" then TextoPorDefecto else t :=
  extraerHtml_eq_ultimo partes

/-! ## Per-message outcomes -/

theorem pasaFiltros_iff (env : Entorno) (st : Estado) (msg : Message) :
    pasaFiltros env st msg = true ↔
      stringsContains msg.Envelope.Subject Etiqueta = false ∧
      st.historial.contiene (sprintfD msg.Uid) = false ∧
      stringsContains (stringsToLower env.tablaMinusculas msg.Envelope.Subject) PalabraClave
        = true := by
  simp [pasaFiltros, and_assoc]

theorem procesarMensaje_sin_filtros (env : Entorno) (st : Estado) (msg : Message)
    (h : pasaFiltros env st msg = false) : procesarMensaje env st msg = .ok st := by
  unfold procesarMensaje
  by_cases h1 : stringsContains msg.Envelope.Subject Etiqueta = true
  · simp [h1]
  · by_cases h2 : st.historial.contiene (sprintfD msg.Uid) = true
    · simp [h2]
    · have h3 : stringsContains (stringsToLower env.tablaMinusculas msg.Envelope.Subject)
          PalabraClave = false := by
        simp only [pasaFiltros] at h
        simp only [Bool.not_eq_true] at h1 h2
        simpa [h1, h2] using h
      simp [h1, h2, h3]

theorem procesarMensaje_ilegible (env : Entorno) (st : Estado) (msg : Message)
    (hc : msg.Cuerpo = none) : procesarMensaje env st msg = .ok st := by
  unfold procesarMensaje
  simp only [hc]
  split
  · rfl
  · split <;> rfl

theorem procesarMensaje_candidato (env : Entorno) (st : Estado) (msg : Message)
    (partes : List Part) (primero : ImapAddress) (otros : List ImapAddress)
    (hf : pasaFiltros env st msg = true) (hc : msg.Cuerpo = some partes)
    (hr : msg.Envelope.From = primero :: otros) :
    procesarMensaje env st msg =
      if env.appendOk st.llamadasAppend.length then
        .ok { historial := st.historial.marcar (sprintfD msg.Uid)
              archivo := registrarUid (env.abreArchivo st.llamadasRegistro) st.archivo msg.Uid
              llamadasAppend := st.llamadasAppend ++
                [(textoAnotado env msg primero (extraerHtml partes), true)]
              llamadasRegistro := st.llamadasRegistro + 1 }
      else
        .ok { st with llamadasAppend := st.llamadasAppend ++
                [(textoAnotado env msg primero (extraerHtml partes), false)] } := by
  obtain ⟨h1, h2, h3⟩ := (pasaFiltros_iff env st msg).mp hf
  unfold procesarMensaje
  simp only [h1, h2, h3, hc, hr, Bool.or_self, Bool.false_eq_true, if_false, if_true]
  rfl

theorem procesarMensaje_sin_remitente (env : Entorno) (st : Estado) (msg : Message)
    (partes : List Part)
    (hf : pasaFiltros env st msg = true) (hc : msg.Cuerpo = some partes)
    (hr : msg.Envelope.From = []) :
    procesarMensaje env st msg = .error .indexOutOfRange := by
  obtain ⟨h1, h2, h3⟩ := (pasaFiltros_iff env st msg).mp hf
  unfold procesarMensaje
  simp only [h1, h2, h3, hc, hr, Bool.or_self, Bool.false_eq_true, if_false, if_true]

/-! ## Trigger -/

/-- C7. The trigger of `procesarMensaje` is a substring test for "prueba" on the
lower-cased subject.  When the test fails the message is passed over (no
`c.Append`, ledger unchanged).  When the subject contains the keyword with its
letters in any mix of upper and lower case the test succeeds, and a message
that is neither tagged nor recorded, with a readable body and a sender, is
annotated and handed to `c.Append`.  For such a message an append call is made
exactly when the lower-cased subject contains the keyword. -/
theorem disparador_insensible (env : Entorno) (st : Estado) (msg : Message) :
    (stringsContains (stringsToLower env.tablaMinusculas msg.Envelope.Subject) PalabraClave
        = false → procesarMensaje env st msg = .ok st) ∧
    (∀ antes w despues : String, esVariante PalabraClave.data w.data = true →
      msg.Envelope.Subject = antes ++ w ++ despues →
      stringsContains (stringsToLower env.tablaMinusculas msg.Envelope.Subject) PalabraClave
        = true ∧
      ∀ partes primero otros,
        stringsContains msg.Envelope.Subject Etiqueta = false →
        st.historial.contiene (sprintfD msg.Uid) = false →
        msg.Cuerpo = some partes → msg.Envelope.From = primero :: otros →
        ∃ st1, procesarMensaje env st msg = .ok st1 ∧
          st1.llamadasAppend = st.llamadasAppend ++
            [(textoAnotado env msg primero (extraerHtml partes),
              env.appendOk st.llamadasAppend.length)]) ∧
    (∀ partes primero otros,
      stringsContains msg.Envelope.Subject Etiqueta = false →
      st.historial.contiene (sprintfD msg.Uid) = false →
      msg.Cuerpo = some partes → msg.Envelope.From = primero :: otros →
      ((∃ st1, procesarMensaje env st msg = .ok st1 ∧
          st1.llamadasAppend ≠ st.llamadasAppend) ↔
        stringsContains (stringsToLower env.tablaMinusculas msg.Envelope.Subject)
          PalabraClave = true)) := by
  have hno : stringsContains (stringsToLower env.tablaMinusculas msg.Envelope.Subject)
      PalabraClave = false → procesarMensaje env st msg = .ok st := by
    intro h
    apply procesarMensaje_sin_filtros
    simp [pasaFiltros, h]
  have hsi : ∀ partes primero otros,
      stringsContains msg.Envelope.Subject Etiqueta = false →
      st.historial.contiene (sprintfD msg.Uid) = false →
      msg.Cuerpo = some partes → msg.Envelope.From = primero :: otros →
      stringsContains (stringsToLower env.tablaMinusculas msg.Envelope.Subject)
        PalabraClave = true →
      ∃ st1, procesarMensaje env st msg = .ok st1 ∧
        st1.llamadasAppend = st.llamadasAppend ++
          [(textoAnotado env msg primero (extraerHtml partes),
            env.appendOk st.llamadasAppend.length)] := by
    intro partes primero otros h1 h2 hc hr h3
    have hf : pasaFiltros env st msg = true := (pasaFiltros_iff env st msg).mpr ⟨h1, h2, h3⟩
    rw [procesarMensaje_candidato env st msg partes primero otros hf hc hr]
    cases env.appendOk st.llamadasAppend.length
    · exact ⟨_, rfl, rfl⟩
    · exact ⟨_, rfl, rfl⟩
  refine ⟨hno, ?_, ?_⟩
  · intro antes w despues hw hs
    have h3 : stringsContains (stringsToLower env.tablaMinusculas msg.Envelope.Subject)
        PalabraClave = true := by
      rw [stringsContains_iff, hs]
      have hm := map_unicodeToLower_variante env.tablaMinusculas _ _ palabraClave_minusculas hw
      simp only [stringsToLower, String.data_append, List.map_append, hm]
      exact ⟨_, _, rfl⟩
    exact ⟨h3, fun partes primero otros h1 h2 hc hr => hsi partes primero otros h1 h2 hc hr h3⟩
  · intro partes primero otros h1 h2 hc hr
    constructor
    · rintro ⟨st1, hp, hne⟩
      cases h3 : stringsContains (stringsToLower env.tablaMinusculas msg.Envelope.Subject)
          PalabraClave with
      | true => rfl
      | false =>
        rw [hno h3] at hp
        injection hp with hp
        subst hp
        exact absurd rfl hne
    · intro h3
      obtain ⟨st1, hp, hl⟩ := hsi partes primero otros h1 h2 hc hr h3
      refine ⟨st1, hp, ?_⟩
      rw [hl]
      intro h
      have := congrArg List.length h
      simp at this

theorem disparador_insensible_witness :
    procesarMensaje entornoEjemplo estadoInicial mensaje9 = .ok estadoInicial ∧
    stringsContains
      (stringsToLower entornoEjemplo.tablaMinusculas mensajeMayusculas.Envelope.Subject)
      PalabraClave = true ∧
    (∃ st1, procesarMensaje entornoEjemplo estadoInicial mensajeMayusculas = .ok st1 ∧
      st1.llamadasAppend =
        [(textoAnotado entornoEjemplo mensajeMayusculas remitenteEjemplo "<p>pulse aqui</p>",
          true)]) ∧
    (∃ st1, procesarMensaje entornoEjemplo estadoInicial mensaje10 = .ok st1 ∧
      st1.llamadasAppend ≠ []) :=
  have h := (disparador_insensible entornoEjemplo estadoInicial mensajeMayusculas).2.1
    "Aviso: " "PrUEbA" " de seguridad" (by decide) rfl
  ⟨(disparador_insensible entornoEjemplo estadoInicial mensaje9).1 (by decide),
   h.1,
   h.2 [parteHtml "<p>pulse aqui</p>"] remitenteEjemplo [] (by decide) (by decide) rfl rfl,
   ((disparador_insensible entornoEjemplo estadoInicial mensaje10).2.2
      [parteHtml "<p>pulse aqui</p>"] remitenteEjemplo [] (by decide) (by decide) rfl rfl).mpr
      (by decide)⟩

/-! ## Unreadable bodies -/

/-- C8 (counterexample). Message 10 passes the three filters and has a sender, the
mail reader cannot be created for its body, and it is not appended at all: the
state, with its empty list of append calls, stays as it was. -/
theorem ilegible_no_degrada :
    pasaFiltros entornoEjemplo estadoInicial mensajeIlegible = true ∧
    mensajeIlegible.Envelope.From = [remitenteEjemplo] ∧
    mensajeIlegible.Cuerpo = none ∧
    procesarMensaje entornoEjemplo estadoInicial mensajeIlegible = .ok estadoInicial ∧
    ¬ DegradaATextoPorDefecto entornoEjemplo estadoInicial mensajeIlegible := by
  have hp : procesarMensaje entornoEjemplo estadoInicial mensajeIlegible = .ok estadoInicial :=
    procesarMensaje_ilegible _ _ _ rfl
  refine ⟨by decide, rfl, rfl, hp, ?_⟩
  rintro ⟨primero, otros, st1, _, h1, h2⟩
  rw [hp] at h1
  injection h1 with h1
  subst h1
  simp [estadoInicial] at h2

/-- C8 (amended). When the mail reader cannot be created the message is dropped for
this cycle: nothing is appended and the ledger is unchanged.  The fallback text
is used when the reader is created, the message passes the filters and has a
sender, and its parts hold no inline `text/html` part or the last one is
empty: then the append call carries the banner followed by the fallback text. -/
theorem ilegible_se_omite (env : Entorno) (st : Estado) (msg : Message) :
    (msg.Cuerpo = none → procesarMensaje env st msg = .ok st) ∧
    (∀ partes primero otros, pasaFiltros env st msg = true → msg.Cuerpo = some partes →
      msg.Envelope.From = primero :: otros →
      (ultimoHtml partes = none ∨ ultimoHtml partes = some "") →
      ∃ st1, procesarMensaje env st msg = .ok st1 ∧
        st1.llamadasAppend = st.llamadasAppend ++
          [(textoAnotado env msg primero TextoPorDefecto,
            env.appendOk st.llamadasAppend.length)]) := by
  refine ⟨procesarMensaje_ilegible env st msg, ?_⟩
  intro partes primero otros hf hc hr hu
  have hx : extraerHtml partes = TextoPorDefecto := by
    rw [extraerHtml_eq_ultimo]
    rcases hu with hu | hu <;> simp [hu]
  rw [procesarMensaje_candidato env st msg partes primero otros hf hc hr, hx]
  cases env.appendOk st.llamadasAppend.length
  · exact ⟨_, rfl, rfl⟩
  · exact ⟨_, rfl, rfl⟩

theorem ilegible_se_omite_witness :
    procesarMensaje entornoEjemplo estadoInicial mensajeIlegible = .ok estadoInicial :=
  (ilegible_se_omite entornoEjemplo estadoInicial mensajeIlegible).1 rfl

/-! ## Missing sender -/

/-- C10 (failing input). Message 10 with an empty `From` list passes the three filters
and its body is readable; taking `From[0]` panics, and the panic leaves
`iniciarServicioSeguridad` although neither the select nor the fetch failed. -/
theorem panico_sin_remitente :
    pasaFiltros entornoEjemplo estadoInicial mensajeSinRemitente = true ∧
    buzonSinRemitente.seleccion = .ok 1 ∧
    errorDeSesion buzonSinRemitente = none ∧
    procesarMensaje entornoEjemplo estadoInicial mensajeSinRemitente
      = .error .indexOutOfRange ∧
    iniciarServicioSeguridad entornoEjemplo none none estadoInicial [buzonSinRemitente]
      = .error .indexOutOfRange := by
  refine ⟨by decide, rfl, rfl, ?_, ?_⟩
  · exact procesarMensaje_sin_remitente _ _ _ _ (by decide) rfl rfl
  · have h : procesarMensaje entornoEjemplo estadoInicial mensajeSinRemitente
        = .error .indexOutOfRange :=
      procesarMensaje_sin_remitente _ _ _ _ (by decide) rfl rfl
    simp only [iniciarServicioSeguridad, bucle, cicloEscaneo, buzonSinRemitente, calcularRango,
      procesarLote, h]
    rfl

/-! ## Batches -/

theorem cicloEscaneo_lote (env : Entorno) (st : Estado) (bz : Buzon) (m : Message)
    (lote : List Message) (h : loteDe bz = m :: lote) :
    cicloEscaneo env st bz =
      (procesarLote env st (loteDe bz)).map (fun st1 => (st1, errorDeSesion bz)) := by
  unfold loteDe at h
  unfold cicloEscaneo loteDe errorDeSesion
  cases hs : bz.seleccion with
  | error e => simp [hs] at h
  | ok n =>
    simp only [hs] at h ⊢
    cases hr : calcularRango n with
    | none => simp [hr] at h
    | some r =>
      obtain ⟨a, b⟩ := r
      simp only []
      cases procesarLote env st (bz.fetch a b).1 <;> rfl

theorem enReposo_omite (env : Entorno) (st : Estado) (msg : Message)
    (h : enReposo env st msg) : procesarMensaje env st msg = .ok st := by
  rcases h with h | h
  · exact procesarMensaje_sin_filtros env st msg h
  · exact procesarMensaje_ilegible env st msg h

theorem enReposo_lote (env : Entorno) (st : Estado) (lote : List Message)
    (h : ∀ m ∈ lote, enReposo env st m) : procesarLote env st lote = .ok st := by
  induction lote with
  | nil => rfl
  | cons m r ih =>
    simp only [procesarLote, enReposo_omite env st m (h m (List.mem_cons_self _ _))]
    exact ih (fun x hx => h x (List.mem_cons_of_mem _ hx))

theorem enReposo_mono (env : Entorno) (st st1 : Estado) (msg : Message)
    (hsub : ∀ k, k ∈ st.historial → k ∈ st1.historial) (h : enReposo env st msg) :
    enReposo env st1 msg := by
  rcases h with h | h
  · left
    by_cases h1 : stringsContains msg.Envelope.Subject Etiqueta = true
    · simp [pasaFiltros, h1]
    · by_cases h2 : st.historial.contiene (sprintfD msg.Uid) = true
      · have h2m : sprintfD msg.Uid ∈ st1.historial := by
          apply hsub
          simpa [Historial.contiene] using h2
        simp [pasaFiltros, Historial.contiene, h2m]
      · simp only [Bool.not_eq_true] at h1 h2
        simp only [pasaFiltros, h1, h2, Bool.not_false, Bool.true_and] at h
        simp [pasaFiltros, h]
  · right
    exact h

theorem enReposo_etiquetado (env : Entorno) (st : Estado) (msg : Message) (s : String)
    (h : msg.Envelope.Subject = "[ANALIZADO] " ++ s) : enReposo env st msg := by
  left
  have ht : stringsContains msg.Envelope.Subject Etiqueta = true := by
    rw [stringsContains_iff, h]
    exact ⟨[], ' ' :: s.data, rfl⟩
  simp [pasaFiltros, ht]

/-- One message: the trace of append calls grows at the end, the ledger keys are kept,
and if every new call succeeded the message is at rest afterwards. -/
theorem procesarMensaje_paso (env : Entorno) (st st1 : Estado) (msg : Message)
    (h : procesarMensaje env st msg = .ok st1) :
    (∃ e, st1.llamadasAppend = st.llamadasAppend ++ e) ∧
    (∀ k, k ∈ st.historial → k ∈ st1.historial) ∧
    ((∀ c ∈ llamadasNuevas st st1, c.2 = true) → enReposo env st1 msg) := by
  by_cases hf : pasaFiltros env st msg = true
  · cases hc : msg.Cuerpo with
    | none =>
      rw [procesarMensaje_ilegible env st msg hc] at h
      injection h with h
      subst h
      exact ⟨⟨[], by simp⟩, fun _ hk => hk, fun _ => Or.inr hc⟩
    | some partes =>
      cases hr : msg.Envelope.From with
      | nil =>
        rw [procesarMensaje_sin_remitente env st msg partes hf hc hr] at h
        cases h
      | cons primero otros =>
        rw [procesarMensaje_candidato env st msg partes primero otros hf hc hr] at h
        cases hok : env.appendOk st.llamadasAppend.length with
        | false =>
          simp only [hok, Bool.false_eq_true, if_false] at h
          injection h with h
          subst h
          refine ⟨⟨_, rfl⟩, fun _ hk => hk, ?_⟩
          intro hall
          have := hall (textoAnotado env msg primero (extraerHtml partes), false)
            (by simp [llamadasNuevas])
          simp at this
        | true =>
          simp only [hok, if_true] at h
          injection h with h
          subst h
          refine ⟨⟨_, rfl⟩, ?_, ?_⟩
          · intro k hk
            simp only [Historial.marcar]
            split
            · exact hk
            · exact List.mem_append_left _ hk
          · intro _
            left
            have hm : sprintfD msg.Uid ∈ st.historial.marcar (sprintfD msg.Uid) := by
              simp only [Historial.marcar]
              split
              · assumption
              · simp
            simp [pasaFiltros, Historial.contiene, hm]
  · simp only [Bool.not_eq_true] at hf
    rw [procesarMensaje_sin_filtros env st msg hf] at h
    injection h with h
    subst h
    exact ⟨⟨[], by simp⟩, fun _ hk => hk, fun _ => Or.inl hf⟩

theorem procesarLote_paso (env : Entorno) (lote : List Message) :
    ∀ (st st1 : Estado), procesarLote env st lote = .ok st1 →
      (∃ e, st1.llamadasAppend = st.llamadasAppend ++ e) ∧
      (∀ k, k ∈ st.historial → k ∈ st1.historial) ∧
      ((∀ c ∈ llamadasNuevas st st1, c.2 = true) → ∀ m ∈ lote, enReposo env st1 m) := by
  induction lote with
  | nil =>
    intro st st1 h
    simp only [procesarLote] at h
    injection h with h
    subst h
    exact ⟨⟨[], by simp⟩, fun _ hk => hk, fun _ m hm => absurd hm (List.not_mem_nil m)⟩
  | cons m r ih =>
    intro st st1 h
    simp only [procesarLote] at h
    cases hm : procesarMensaje env st m with
    | error p => simp [hm] at h
    | ok st' =>
      simp only [hm] at h
      obtain ⟨⟨e1, he1⟩, hs1, hq1⟩ := procesarMensaje_paso env st st' m hm
      obtain ⟨⟨e2, he2⟩, hs2, hq2⟩ := ih st' st1 h
      have hn : llamadasNuevas st st1 = e1 ++ e2 := by
        simp [llamadasNuevas, he2, he1, List.append_assoc]
      have hn1 : llamadasNuevas st st' = e1 := by simp [llamadasNuevas, he1]
      have hn2 : llamadasNuevas st' st1 = e2 := by simp [llamadasNuevas, he2]
      refine ⟨⟨e1 ++ e2, by rw [he2, he1, List.append_assoc]⟩,
        fun k hk => hs2 k (hs1 k hk), ?_⟩
      intro hall x hx
      rw [hn] at hall
      rcases List.mem_cons.mp hx with rfl | hx
      · apply enReposo_mono env st' st1 x hs2
        apply hq1
        rw [hn1]
        exact fun c hc => hall c (List.mem_append_left _ hc)
      · apply hq2 _ x hx
        rw [hn2]
        exact fun c hc => hall c (List.mem_append_right _ hc)

/-- C2. If a cycle from state `st` over the mailbox `bz` ends in state `st1` and every
append call it made succeeded, then a cycle from `st1` changes nothing (no
append call, same in-memory ledger, same ledger file) over any mailbox whose
window holds only messages of the first window and messages whose subject is
"[ANALIZADO] " followed by some text, as the annotated copies have. -/
theorem sin_reproceso (env : Entorno) (st st1 : Estado) (bz bz2 : Buzon) (r : Option String)
    (h1 : cicloEscaneo env st bz = .ok (st1, r))
    (hok : ∀ c ∈ llamadasNuevas st st1, c.2 = true)
    (h2 : ∀ m ∈ loteDe bz2, m ∈ loteDe bz ∨ ∃ s, m.Envelope.Subject = "[ANALIZADO] " ++ s) :
    cicloEscaneo env st1 bz2 = .ok (st1, errorDeSesion bz2) := by
  have hq : ∀ m ∈ loteDe bz, enReposo env st1 m := by
    cases hl : loteDe bz with
    | nil => exact fun m hm => absurd hm (List.not_mem_nil m)
    | cons a t =>
      rw [cicloEscaneo_lote env st bz a t hl] at h1
      cases hp : procesarLote env st (loteDe bz) with
      | error p => simp [hp, Except.map] at h1
      | ok st' =>
        simp only [hp, Except.map] at h1
        injection h1 with h1
        injection h1 with h1 _
        subst h1
        rw [← hl]
        exact (procesarLote_paso env (loteDe bz) st st' hp).2.2 hok
  have hq2 : ∀ m ∈ loteDe bz2, enReposo env st1 m := by
    intro m hm
    rcases h2 m hm with h | ⟨s, hs⟩
    · exact hq m h
    · exact enReposo_etiquetado env st1 m s hs
  cases hl2 : loteDe bz2 with
  | cons a t =>
    rw [cicloEscaneo_lote env st1 bz2 a t hl2, enReposo_lote env st1 _ hq2]
    rfl
  | nil =>
    unfold loteDe at hl2
    unfold cicloEscaneo errorDeSesion
    cases hs : bz2.seleccion with
    | error e => rfl
    | ok n =>
      simp only [hs] at hl2 ⊢
      cases hr : calcularRango n with
      | none => rfl
      | some ab =>
        obtain ⟨a, b⟩ := ab
        simp only [hr] at hl2 ⊢
        simp only [hl2, procesarLote]

theorem sin_reproceso_witness :
    cicloEscaneo entornoEjemplo estadoInicial buzonEjemplo = .ok (estadoTrasCiclo, none) ∧
    estadoTrasCiclo.historial = ["10"] ∧
    estadoTrasCiclo.llamadasAppend.length = 1 ∧
    cicloEscaneo entornoEjemplo estadoTrasCiclo buzonEjemplo = .ok (estadoTrasCiclo, none) :=
  ⟨rfl, rfl, rfl,
    sin_reproceso entornoEjemplo estadoInicial estadoTrasCiclo buzonEjemplo buzonEjemplo none
      rfl (by decide) (fun _ hm => Or.inl hm)⟩

/-! ## Decimal keys -/

theorem digitChar_digito (k : Nat) (hk : k < 10) :
    Nat.digitChar k ∈ digitos ∧ (Nat.digitChar k).toNat - 48 = k := by
  interval_cases k <;> decide

theorem toDigitsCore_append (f : Nat) : ∀ (n : Nat) (ds : List Char),
    Nat.toDigitsCore 10 f n ds = Nat.toDigitsCore 10 f n [] ++ ds := by
  induction f with
  | zero => intro n ds; simp [Nat.toDigitsCore]
  | succ f ih =>
    intro n ds
    simp only [Nat.toDigitsCore]
    split
    · simp
    · rw [ih (n / 10) (Nat.digitChar (n % 10) :: ds), ih (n / 10) [Nat.digitChar (n % 10)]]
      simp

theorem toDigitsCore_digitos (f : Nat) : ∀ (n : Nat),
    ∀ c ∈ Nat.toDigitsCore 10 f n [], c ∈ digitos := by
  induction f with
  | zero => intro n c hc; simp [Nat.toDigitsCore] at hc
  | succ f ih =>
    intro n c hc
    simp only [Nat.toDigitsCore] at hc
    have hd := (digitChar_digito (n % 10) (Nat.mod_lt _ (by norm_num))).1
    split at hc
    · simp only [List.mem_singleton] at hc
      rw [hc]
      exact hd
    · rw [toDigitsCore_append] at hc
      rcases List.mem_append.mp hc with h | h
      · exact ih _ c h
      · simp only [List.mem_singleton] at h
        rw [h]
        exact hd

theorem valorDecimal_append (a : List Char) (c : Char) :
    valorDecimal (a ++ [c]) = 10 * valorDecimal a + (c.toNat - 48) := by
  simp [valorDecimal, List.foldl_append]

theorem valorDecimal_toDigitsCore (f : Nat) : ∀ (n : Nat), n < f →
    valorDecimal (Nat.toDigitsCore 10 f n []) = n := by
  induction f with
  | zero => intro n h; omega
  | succ f ih =>
    intro n h
    simp only [Nat.toDigitsCore]
    have hd := (digitChar_digito (n % 10) (Nat.mod_lt _ (by norm_num))).2
    split
    · rename_i h0
      have : valorDecimal [Nat.digitChar (n % 10)] = (Nat.digitChar (n % 10)).toNat - 48 := by
        simp [valorDecimal]
      rw [this, hd]
      omega
    · rename_i h0
      rw [toDigitsCore_append, valorDecimal_append, ih (n / 10) (by omega), hd]
      omega

theorem valorDecimal_sprintfD (n : Nat) : valorDecimal (sprintfD n).data = n := by
  simp only [sprintfD, Nat.repr, Nat.toDigits, List.asString]
  exact valorDecimal_toDigitsCore (n + 1) n (Nat.lt_succ_self n)

theorem sprintfD_inyectiva (a b : Nat) (h : sprintfD a = sprintfD b) : a = b := by
  rw [← valorDecimal_sprintfD a, ← valorDecimal_sprintfD b, h]

theorem sprintfD_digitos (n : Nat) : ∀ c ∈ (sprintfD n).data, c ∈ digitos := by
  simp only [sprintfD, Nat.repr, Nat.toDigits, List.asString]
  exact toDigitsCore_digitos (n + 1) n

theorem sprintfD_longitud (n : Nat) (h : n < 2 ^ 32) : (sprintfD n).data.length ≤ 10 := by
  have h10 : n < 10 ^ 10 := lt_trans h (by norm_num)
  exact Nat.repr_length n 10 (by norm_num) h10

/-! ## Ledger file -/

theorem bytesUtf8_cons (c : Char) (cs : List Char) :
    bytesUtf8 (c :: cs) = c.utf8Size + bytesUtf8 cs := by
  simp [bytesUtf8]

theorem digitos_utf8Size : ∀ c ∈ digitos, c.utf8Size = 1 := by
  decide

theorem bytesUtf8_digitos (cs : List Char) (h : ∀ c ∈ cs, c ∈ digitos) :
    bytesUtf8 cs = cs.length := by
  induction cs with
  | nil => rfl
  | cons c t ih =>
    have h1 : c.utf8Size = 1 := digitos_utf8Size c (h c (List.mem_cons_self _ _))
    rw [bytesUtf8_cons, h1, ih (fun x hx => h x (List.mem_cons_of_mem _ hx))]
    simp [Nat.add_comm]

theorem dropCR_digitos (cs : List Char) (h : ∀ c ∈ cs, c ∈ digitos) : dropCR cs = cs := by
  unfold dropCR
  split
  · rename_i hl
    have hm : '\r' ∈ cs := List.mem_of_getLast?_eq_some hl
    exact absurd (h _ hm) (by decide)
  · rfl

/-- One complete line: when the scanner stands at the start of a line `l` that has no
newline in it and fits the buffer, it returns the line and goes on after the
newline. -/
theorem scanLineasAux_linea (resto : List Char) : ∀ (l acc : List Char),
    (∀ c ∈ l, c ≠ '\n') → bytesUtf8 acc + bytesUtf8 l < MaxScanTokenSize →
    scanLineasAux (l ++ '\n' :: resto) acc =
      ⟨dropCR (acc.reverse ++ l)⟩ :: scanLineasAux resto [] := by
  intro l
  induction l with
  | nil =>
    intro acc _ _
    simp [scanLineasAux]
  | cons c t ih =>
    intro acc hnl hb
    have hc : c ≠ '\n' := hnl c (List.mem_cons_self _ _)
    rw [bytesUtf8_cons] at hb
    have hlt : ¬ MaxScanTokenSize ≤ bytesUtf8 (c :: acc) := by
      rw [bytesUtf8_cons]
      omega
    simp only [List.cons_append, scanLineasAux, hc, if_false, hlt, List.append_eq]
    rw [ih (c :: acc) (fun x hx => hnl x (List.mem_cons_of_mem _ hx))
      (by rw [bytesUtf8_cons]; omega)]
    simp

theorem scanLineasAux_lineasDe (uids : List Nat) (hu : ∀ u ∈ uids, u < 2 ^ 32) :
    scanLineasAux (lineasDe uids) [] = uids.map sprintfD := by
  induction uids with
  | nil => rfl
  | cons u us ih =>
    have hd := sprintfD_digitos u
    have hlen := sprintfD_longitud u (hu u (List.mem_cons_self _ _))
    have hnl : ∀ c ∈ (sprintfD u).data, c ≠ '\n' := by
      intro c hc hcn
      subst hcn
      exact absurd (hd _ hc) (by decide)
    have hb : bytesUtf8 [] + bytesUtf8 (sprintfD u).data < MaxScanTokenSize := by
      rw [bytesUtf8_digitos _ hd]
      simp only [bytesUtf8, List.map_nil, List.sum_nil, MaxScanTokenSize]
      omega
    have hl : lineasDe (u :: us) = (sprintfD u).data ++ '\n' :: lineasDe us := by
      simp [lineasDe]
    rw [hl, scanLineasAux_linea _ _ _ hnl hb, ih (fun x hx => hu x (List.mem_cons_of_mem _ hx))]
    simp [dropCR_digitos _ hd]

theorem registrarUid_foldl (uids : List Nat) : ∀ (s : String),
    uids.foldl (registrarUid true) (some s) = some ⟨s.data ++ lineasDe uids⟩ := by
  induction uids with
  | nil => intro s; simp [lineasDe]
  | cons u us ih =>
    intro s
    simp only [List.foldl_cons, registrarUid, if_true, Option.getD_some]
    rw [ih]
    simp [lineasDe, String.data_append]

theorem registrarUid_foldl_none (uids : List Nat) (hne : uids ≠ []) :
    uids.foldl (registrarUid true) none = uids.foldl (registrarUid true) (some "") := by
  cases uids with
  | nil => exact absurd rfl hne
  | cons u us => rfl

theorem marcar_foldl_mem (k : String) (l : List String) : ∀ (h : Historial),
    k ∈ l.foldl Historial.marcar h ↔ k ∈ h ∨ k ∈ l := by
  induction l with
  | nil => intro h; simp
  | cons a t ih =>
    intro h
    rw [List.foldl_cons, ih]
    have hm : k ∈ Historial.marcar h a ↔ k ∈ h ∨ k = a := by
      unfold Historial.marcar
      split
      · rename_i ha
        constructor
        · exact Or.inl
        · rintro (h1 | rfl)
          · exact h1
          · exact ha
      · simp
    rw [hm, List.mem_cons, or_assoc]

theorem cargarRegistros_lineasDe (uids : List Nat) (hu : ∀ u ∈ uids, u < 2 ^ 32) (u : Nat) :
    (cargarRegistros (some ⟨lineasDe uids⟩)).contiene (sprintfD u) = true ↔ u ∈ uids := by
  simp only [cargarRegistros, scanLineas, Historial.contiene, decide_eq_true_eq,
    scanLineasAux_lineasDe uids hu, marcar_foldl_mem, List.mem_map]
  constructor
  · rintro (h | ⟨v, hv, he⟩)
    · exact absurd h (List.not_mem_nil _)
    · rw [← sprintfD_inyectiva v u he]
      exact hv
  · intro h
    exact Or.inr ⟨u, h, rfl⟩

/-- C6. Starting from a missing or empty ledger file, after `registrarUid` has written
the 32-bit UIDs `uids` (every open succeeding), `cargarRegistros` on the file
gives a ledger in which the decimal key of `u` is present exactly when `u` is
among `uids`; a missing file gives the empty ledger; and with the reloaded
ledger a message whose UID was recorded is passed over whatever its subject. -/
theorem libro_ida_y_vuelta (archivo : Option String)
    (h0 : archivo = none ∨ archivo = some "") (uids : List Nat)
    (hu : ∀ u ∈ uids, u < 2 ^ 32) :
    (∀ u, (cargarRegistros (uids.foldl (registrarUid true) archivo)).contiene (sprintfD u)
        = true ↔ u ∈ uids) ∧
    cargarRegistros none = [] ∧
    (∀ env st msg, st.historial = cargarRegistros (uids.foldl (registrarUid true) archivo) →
      msg.Uid ∈ uids → procesarMensaje env st msg = .ok st) := by
  have key : ∀ u, (cargarRegistros (uids.foldl (registrarUid true) archivo)).contiene
      (sprintfD u) = true ↔ u ∈ uids := by
    intro u
    by_cases hne : uids = []
    · subst hne
      rcases h0 with rfl | rfl <;> simp [cargarRegistros, Historial.contiene, scanLineas,
        scanLineasAux]
    · have hf : uids.foldl (registrarUid true) archivo = some ⟨lineasDe uids⟩ := by
        rcases h0 with rfl | rfl
        · rw [registrarUid_foldl_none uids hne, registrarUid_foldl]
          rfl
        · rw [registrarUid_foldl]
          rfl
      rw [hf]
      exact cargarRegistros_lineasDe uids hu u
  refine ⟨key, rfl, ?_⟩
  intro env st msg hst hm
  apply procesarMensaje_guardas
  left
  rw [hst]
  exact (key msg.Uid).mpr hm

theorem libro_ida_y_vuelta_witness :
    (cargarRegistros (some "10\n")).contiene "10" = true ∧
    procesarMensaje entornoEjemplo
      { estadoInicial with historial := cargarRegistros (some "10\n") } mensaje10
      = .ok { estadoInicial with historial := cargarRegistros (some "10\n") } :=
  have h := libro_ida_y_vuelta none (Or.inl rfl) [10] (by decide)
  ⟨(h.1 10).mpr (by decide), h.2.2 _ _ mensaje10 rfl (by decide)⟩

/-! ## Threading headers -/

theorem lineasCRLFAux_linea (resto : List Char) : ∀ (l acc : List Char),
    (∀ c ∈ l, c ≠ '\n') →
    lineasCRLFAux (l ++ '\r' :: '\n' :: resto) acc =
      ⟨acc.reverse ++ l⟩ :: lineasCRLFAux resto [] := by
  intro l
  induction l with
  | nil =>
    intro acc _
    simp [lineasCRLFAux]
  | cons c t ih =>
    intro acc h
    have ht : ∀ x ∈ t, x ≠ '\n' := fun x hx => h x (List.mem_cons_of_mem _ hx)
    have hstep : lineasCRLFAux ((c :: t) ++ '\r' :: '\n' :: resto) acc =
        lineasCRLFAux (t ++ '\r' :: '\n' :: resto) (c :: acc) := by
      cases t with
      | nil =>
        have : ¬ (c = '\r' ∧ '\r' = '\n') := by
          intro hh
          exact absurd hh.2 (by decide)
        simp only [List.cons_append, List.nil_append, lineasCRLFAux, this, if_false]
      | cons d t2 =>
        have hd : d ≠ '\n' := h d (by simp)
        have : ¬ (c = '\r' ∧ d = '\n') := fun hh => hd hh.2
        simp only [List.cons_append, lineasCRLFAux, this, if_false, List.append_eq]
    rw [hstep, ih (c :: acc) ht]
    simp

theorem sinSalto_literal (pre l : List Char) (hp : ∀ c ∈ pre, c ≠ '\n')
    (hl : ∀ c ∈ l, c ≠ '\n') : ∀ c ∈ pre ++ l, c ≠ '\n' := by
  intro c hc
  rcases List.mem_append.mp hc with h | h
  · exact hp c h
  · exact hl c h

/-- When the sender address, the account name, the subject and the message id hold no
line feed, the literal built at lines 141-152 has both threading fields in its
header block, each with the message id as its value. -/
theorem cabeceras_sin_saltos (r u a m c : String)
    (hr : ∀ x ∈ r.data, x ≠ '\n') (hu : ∀ x ∈ u.data, x ≠ '\n')
    (ha : ∀ x ∈ a.data, x ≠ '\n') (hm : ∀ x ∈ m.data, x ≠ '\n') :
    valorCabecera "In-Reply-To" (mensajeFinal r u a m c) = some m ∧
    valorCabecera "References" (mensajeFinal r u a m c) = some m := by
  have hd : (mensajeFinal r u a m c).data =
      ("From: ".data ++ r.data) ++ '\r' :: '\n' ::
      (("To: ".data ++ u.data) ++ '\r' :: '\n' ::
      (("Subject: [ANALIZADO] ".data ++ a.data) ++ '\r' :: '\n' ::
      (("In-Reply-To: ".data ++ m.data) ++ '\r' :: '\n' ::
      (("References: ".data ++ m.data) ++ '\r' :: '\n' ::
      ("MIME-Version: 1.0".data ++ '\r' :: '\n' ::
      ("Content-Type: text/html; charset=UTF-8".data ++ '\r' :: '\n' ::
      ([] ++ '\r' :: '\n' :: c.data))))))) := by
    simp [mensajeFinal, String.data_append, List.append_assoc]
  have hlin : lineasCRLFAux (mensajeFinal r u a m c).data [] =
      ("From: " ++ r) :: ("To: " ++ u) :: ("Subject: [ANALIZADO] " ++ a) ::
      ("In-Reply-To: " ++ m) :: ("References: " ++ m) :: "MIME-Version: 1.0" ::
      "Content-Type: text/html; charset=UTF-8" :: "" :: lineasCRLFAux c.data [] := by
    rw [hd,
      lineasCRLFAux_linea _ _ _ (sinSalto_literal _ _ (by decide) hr),
      lineasCRLFAux_linea _ _ _ (sinSalto_literal _ _ (by decide) hu),
      lineasCRLFAux_linea _ _ _ (sinSalto_literal _ _ (by decide) ha),
      lineasCRLFAux_linea _ _ _ (sinSalto_literal _ _ (by decide) hm),
      lineasCRLFAux_linea _ _ _ (sinSalto_literal _ _ (by decide) hm),
      lineasCRLFAux_linea _ _ _ (by decide),
      lineasCRLFAux_linea _ _ _ (by decide),
      lineasCRLFAux_linea _ _ _ (by simp)]
    rfl
  have hne : ∀ (p x : String), p.data ≠ [] → decide (p ++ x ≠ "") = true := by
    intro p x hp
    simp only [decide_eq_true_eq]
    intro h
    have := congrArg String.data h
    simp only [String.data_append] at this
    cases hpd : p.data with
    | nil => exact hp hpd
    | cons a t => simp [hpd] at this
  have hb : bloqueCabeceras (mensajeFinal r u a m c) =
      ["From: " ++ r, "To: " ++ u, "Subject: [ANALIZADO] " ++ a,
       "In-Reply-To: " ++ m, "References: " ++ m, "MIME-Version: 1.0",
       "Content-Type: text/html; charset=UTF-8"] := by
    unfold bloqueCabeceras
    rw [hlin]
    simp only [List.takeWhile, hne "From: " r (by decide), hne "To: " u (by decide),
      hne "Subject: [ANALIZADO] " a (by decide), hne "In-Reply-To: " m (by decide),
      hne "References: " m (by decide)]
    rfl
  unfold valorCabecera
  rw [hb]
  constructor
  · simp [List.find?, String.data_append, List.isPrefixOf]
  · simp [List.find?, String.data_append, List.isPrefixOf]

/-- C4 (failing input). Message 10 with the subject "Prueba", an empty line and more
text is annotated and appended; in the literal sent the header block ends
right after the subject line, so the message has neither an `In-Reply-To` nor a
`References` field: both lines land in the body. -/
theorem cabeceras_desplazadas :
    procesarMensaje entornoEjemplo estadoInicial mensajeInyeccion =
      .ok { historial := ["10"]
            archivo := some "10\n"
            llamadasAppend :=
              [(textoAnotado entornoEjemplo mensajeInyeccion remitenteEjemplo
                  "<p>pulse aqui</p>", true)]
            llamadasRegistro := 1 } ∧
    bloqueCabeceras
        (textoAnotado entornoEjemplo mensajeInyeccion remitenteEjemplo "<p>pulse aqui</p>") =
      ["From: ana@banco.example", "To: yo@gmail.com", "Subject: [ANALIZADO] Prueba"] ∧
    valorCabecera "In-Reply-To"
        (textoAnotado entornoEjemplo mensajeInyeccion remitenteEjemplo "<p>pulse aqui</p>") =
      none ∧
    valorCabecera "References"
        (textoAnotado entornoEjemplo mensajeInyeccion remitenteEjemplo "<p>pulse aqui</p>") =
      none ∧
    mensajeInyeccion.Envelope.MessageId = "<m10@banco.example>" :=
  ⟨rfl, by decide, by decide, by decide, rfl⟩

/-! ## Panics -/

/-- The only way processing one message fails: it passes the filters, its body is
readable, and its envelope has no sender. -/
theorem procesarMensaje_panico_iff (env : Entorno) (st : Estado) (msg : Message) :
    (∃ p, procesarMensaje env st msg = .error p) ↔
      pasaFiltros env st msg = true ∧ msg.Cuerpo ≠ none ∧ msg.Envelope.From = [] := by
  constructor
  · rintro ⟨p, hp⟩
    by_cases hf : pasaFiltros env st msg = true
    · cases hc : msg.Cuerpo with
      | none => rw [procesarMensaje_ilegible env st msg hc] at hp; cases hp
      | some partes =>
        cases hr : msg.Envelope.From with
        | nil => exact ⟨hf, by simp, rfl⟩
        | cons a t =>
          rw [procesarMensaje_candidato env st msg partes a t hf hc hr] at hp
          split at hp <;> cases hp
    · simp only [Bool.not_eq_true] at hf
      rw [procesarMensaje_sin_filtros env st msg hf] at hp
      cases hp
  · rintro ⟨hf, hc, hr⟩
    cases hcu : msg.Cuerpo with
    | none => exact absurd hcu hc
    | some partes => exact ⟨_, procesarMensaje_sin_remitente env st msg partes hf hcu hr⟩

end Poc
